import Mathlib

/-
Verification of the task-management-api resource store
(src/task-management-api/main.py, models.py) as a shallow embedding.

The store state is the list of live Task rows in insertion (primary-key)
order together with the next identifier the storage engine will assign.
Timestamps are modelled as natural numbers supplied explicitly to each
operation (the collaborator "supplies the current time").
-/

namespace TaskAPI

/-- A task row (models.py, class Task): id, title, optional description,
status string (default "pending"), creation and update timestamps. -/
structure Task where
  id : Nat
  title : String
  description : Option String
  status : String
  created_at : Nat
  updated_at : Nat
deriving Repr, DecidableEq

/-- Creation payload (models.py, class TaskCreate): title and optional
description only; the schema exposes no status field and a pydantic
BaseModel ignores undeclared fields in the payload. -/
structure TaskCreate where
  title : String
  description : Option String
deriving Repr, DecidableEq

/-- Update payload (models.py, class TaskUpdate). `none` in `title` or
`status` means the field was absent from the request body, so
model_dump(exclude_unset=True) drops it. For `description` the outer
option is absence and the inner option is an explicit JSON null (the
column is nullable). -/
structure TaskUpdate where
  title : Option String
  description : Option (Option String)
  status : Option String
deriving Repr, DecidableEq

/-- Errors the endpoints raise via HTTPException: 404 not-found and the
400 invalid-status rejection. -/
inductive ApiError where
  | notFound (taskId : Nat)
  | badRequest
deriving Repr, DecidableEq

/-- HTTP status code carried by each error. -/
def ApiError.code : ApiError → Nat
  | .notFound _ => 404
  | .badRequest => 400

/-- Decidable equality of results, so concrete runs can be checked by decide. -/
instance {ε α : Type} [DecidableEq ε] [DecidableEq α] : DecidableEq (Except ε α) := fun x y =>
  match x, y with
  | .ok a, .ok b =>
      if h : a = b then .isTrue (by rw [h]) else .isFalse (by simp [h])
  | .error e, .error f =>
      if h : e = f then .isTrue (by rw [h]) else .isFalse (by simp [h])
  | .ok _, .error _ => .isFalse (by simp)
  | .error _, .ok _ => .isFalse (by simp)

/-- Store state: live rows in insertion (primary-key) order, plus the next
identifier.

Modelled from the spec: identifier allocation is performed by the storage
engine (a collaborator absent from src/); the spec allows either a
monotonically increasing never-reused counter or an external generator,
requiring only uniqueness and stability — we model the first policy. -/
structure Store where
  tasks : List Task
  nextId : Nat
deriving Repr, DecidableEq

/-- The store at startup: no rows, first id is 1. -/
def emptyStore : Store := { tasks := [], nextId := 1 }

/-- The closed status set, duplicated at both validation sites in main.py. -/
def validStatuses : List String := ["pending", "in_progress", "completed"]

/-- session.get(Task, task_id): primary-key point lookup. -/
def sessionGet (st : Store) (taskId : Nat) : Option Task :=
  st.tasks.find? (fun task => task.id == taskId)

/-- POST /tasks (main.py create_task): build a Task from title and
description; status defaults to "pending", both timestamps default to the
current time; the engine assigns the next id and appends the row. -/
def createTask (st : Store) (payload : TaskCreate) (now : Nat) : Task × Store :=
  let task : Task :=
    { id := st.nextId, title := payload.title, description := payload.description,
      status := "pending", created_at := now, updated_at := now }
  (task, { tasks := st.tasks ++ [task], nextId := st.nextId + 1 })

/-- GET /tasks (main.py list_tasks): `if status_filter:` is Python
truthiness, so both None and the empty string mean "no filter"; a
non-empty filter outside validStatuses is rejected with 400 before the
query runs; otherwise the rows with that status, in insertion order. -/
def listTasks (st : Store) (statusFilter : Option String) : Except ApiError (List Task) :=
  match statusFilter with
  | none => .ok st.tasks
  | some s =>
      if s = "" then .ok st.tasks
      else if s ∈ validStatuses then
        .ok (st.tasks.filter (fun task => task.status == s))
      else .error .badRequest

/-- GET /tasks/{task_id} (main.py get_task): 404 when the id is not live. -/
def getTask (st : Store) (taskId : Nat) : Except ApiError Task :=
  match sessionGet st taskId with
  | none => .error (.notFound taskId)
  | some task => .ok task

/-- The setattr merge loop of update_task: overwrite exactly the fields
present in model_dump(exclude_unset=True). -/
def applyUpdate (task : Task) (upd : TaskUpdate) : Task :=
  { task with
    title := upd.title.getD task.title
    description := upd.description.getD task.description
    status := upd.status.getD task.status }

/-- Commit of update_task after validation: merge the supplied fields,
refresh updated_at, and persist the row in place (its primary key, hence
its position in insertion order, is unchanged). -/
def commitUpdate (st : Store) (taskId : Nat) (task : Task) (upd : TaskUpdate)
    (now : Nat) : Task × Store :=
  let task' := { applyUpdate task upd with updated_at := now }
  (task', { st with tasks := st.tasks.map (fun x => if x.id == taskId then task' else x) })

/-- PUT /tasks/{task_id} (main.py update_task): look up the row first
(404 when absent); then, if the payload supplies a status, reject values
outside validStatuses with 400; otherwise merge and refresh updated_at. -/
def updateTask (st : Store) (taskId : Nat) (upd : TaskUpdate) (now : Nat) :
    Except ApiError (Task × Store) :=
  match sessionGet st taskId with
  | none => .error (.notFound taskId)
  | some task =>
      match upd.status with
      | some s =>
          if s ∈ validStatuses then .ok (commitUpdate st taskId task upd now)
          else .error .badRequest
      | none => .ok (commitUpdate st taskId task upd now)

/-- DELETE /tasks/{task_id} (main.py delete_task): 404 when the id is not
live, otherwise remove the row permanently. -/
def deleteTask (st : Store) (taskId : Nat) : Except ApiError Store :=
  match sessionGet st taskId with
  | none => .error (.notFound taskId)
  | some _ => .ok { st with tasks := st.tasks.filter (fun task => task.id != taskId) }

/-- One mutating API call, with the time the collaborator supplies to it. -/
inductive Op where
  | create (payload : TaskCreate) (now : Nat)
  | update (taskId : Nat) (upd : TaskUpdate) (now : Nat)
  | delete (taskId : Nat)
deriving Repr

/-- State effect of one call: a failing call leaves the store unchanged. -/
def execOp (st : Store) : Op → Store
  | .create payload now => (createTask st payload now).2
  | .update taskId upd now =>
      match updateTask st taskId upd now with
      | .ok p => p.2
      | .error _ => st
  | .delete taskId =>
      match deleteTask st taskId with
      | .ok st' => st'
      | .error _ => st

/-- The store reached by a sequence of calls from startup. -/
def execTrace (ops : List Op) : Store := ops.foldl execOp emptyStore

/-- One step of the history fold: record the id handed out by each create. -/
def allocStep (acc : Store × List Nat) (op : Op) : Store × List Nat :=
  match op with
  | .create _ _ => (execOp acc.1 op, acc.2 ++ [acc.1.nextId])
  | _ => (execOp acc.1 op, acc.2)

/-- Replay a history from startup, collecting every id ever assigned. -/
def allocRun (ops : List Op) : Store × List Nat := List.foldl allocStep (emptyStore, []) ops

/-- All identifiers assigned by create calls along a history, in order. -/
def assignedIds (ops : List Op) : List Nat := (allocRun ops).2

/-- Modelled from the spec: the store contract's
`list(filter, offset, limit)` with offset/limit windowing ("skip the
first offset matches, return up to limit further matches"), stated over
the code's filtered, insertion-ordered result set. -/
def listSpecPaged (st : Store) (statusFilter : Option String) (offset limit : Nat) :
    Except ApiError (List Task) :=
  (listTasks st statusFilter).map (fun l => (l.drop offset).take limit)

/-- The list endpoint as an HTTP request: list_tasks declares only the
status_filter query parameter, so offset and limit query parameters, when
supplied, are undeclared and the framework ignores them. -/
def listTasksRequest (st : Store) (statusFilter : Option String)
    (offset limit : Option Nat) : Except ApiError (List Task) :=
  listTasks st statusFilter

/-- Concrete fixture: a pending task created at time 0. -/
def taskA : Task :=
  { id := 1, title := "Task 1", description := none, status := "pending",
    created_at := 0, updated_at := 0 }

/-- Concrete fixture: an in-progress task created at time 1, updated at 2. -/
def taskB : Task :=
  { id := 2, title := "Task 2", description := some "second", status := "in_progress",
    created_at := 1, updated_at := 2 }

/-- Concrete fixture: a two-row store. -/
def demoStore : Store := { tasks := [taskA, taskB], nextId := 3 }

/-- Concrete fixture: an update payload touching no field. -/
def demoUpd : TaskUpdate := { title := none, description := none, status := none }

/-- A successful primary-key lookup returns a row with the looked-up id
that is live in the store. -/
lemma sessionGet_some {st : Store} {taskId : Nat} {task : Task}
    (h : sessionGet st taskId = some task) : task.id = taskId ∧ task ∈ st.tasks := by
  unfold sessionGet at h
  exact ⟨by simpa using List.find?_some h, List.mem_of_find?_eq_some h⟩

/-- A primary-key lookup fails exactly when no live row has the id. -/
lemma sessionGet_none {st : Store} {taskId : Nat} :
    sessionGet st taskId = none ↔ ∀ task ∈ st.tasks, task.id ≠ taskId := by
  unfold sessionGet
  simp [List.find?_eq_none]

/-- Claim C9: a status filter equal to the empty string is falsy in
Python, so list_tasks treats it as no filter: it returns all live rows
successfully instead of raising the 400 invalid-filter error. -/
theorem claim_C9_empty_filter_treated_as_absent (st : Store) :
    listTasks st (some "") = .ok st.tasks := rfl

/-- Claim C10: the creation schema (TaskCreate) exposes no status field,
so every created record has status exactly "pending" regardless of the
payload. -/
theorem claim_C10_created_status_is_pending (st : Store) (payload : TaskCreate)
    (now : Nat) : (createTask st payload now).1.status = "pending" := rfl

/-- Claim C3: for a valid status s, filtering returns exactly the live
rows whose status is s, as a subsequence of insertion order; with no
filter the full insertion-ordered list is returned. -/
theorem claim_C3_filter_correctness (st : Store) (s : String)
    (hs : s ∈ validStatuses) :
    (∃ l, listTasks st (some s) = .ok l ∧
      (∀ task, task ∈ l ↔ task ∈ st.tasks ∧ task.status = s) ∧
      l.Sublist st.tasks) ∧
    listTasks st none = .ok st.tasks := by
  have hne : s ≠ "" := by
    intro he
    rw [he] at hs
    simp [validStatuses] at hs
  refine ⟨⟨st.tasks.filter (fun task => task.status == s), ?_, ?_, List.filter_sublist _⟩, rfl⟩
  · simp [listTasks, hne, hs]
  · intro task
    simp [List.mem_filter, and_comm]

/-- Witness for C3 at a concrete store and the filter "pending". -/
theorem claim_C3_filter_correctness_witness :
    "pending" ∈ validStatuses ∧
    ((∃ l, listTasks demoStore (some "pending") = .ok l ∧
        (∀ task, task ∈ l ↔ task ∈ demoStore.tasks ∧ task.status = "pending") ∧
        l.Sublist demoStore.tasks) ∧
      listTasks demoStore none = .ok demoStore.tasks) :=
  ⟨by decide, claim_C3_filter_correctness demoStore "pending" (by decide)⟩

/-- Fixture: the store after deleting taskA from demoStore. -/
def afterDeleteStore : Store := { tasks := [taskB], nextId := 3 }

/-- Fixture: an update payload whose status value is outside the closed set. -/
def badUpd : TaskUpdate := { title := none, description := none, status := some "bogus" }

/-- Fixture: an update payload supplying only a new title. -/
def titleUpd : TaskUpdate := { title := some "Renamed", description := none, status := none }

/-- Fixture: taskA after the title-only update at time 7. -/
def taskA' : Task :=
  { id := 1, title := "Renamed", description := none, status := "pending",
    created_at := 0, updated_at := 7 }

/-- Fixture: demoStore after the title-only update of task 1 at time 7. -/
def demoStoreRenamed : Store := { tasks := [taskA', taskB], nextId := 3 }

/-- A successful update is exactly the validated commit on the row the
lookup found. -/
lemma updateTask_ok {st : Store} {taskId : Nat} {upd : TaskUpdate} {now : Nat}
    {task task' : Task} {st' : Store}
    (hget : sessionGet st taskId = some task)
    (hok : updateTask st taskId upd now = .ok (task', st')) :
    (task', st') = commitUpdate st taskId task upd now := by
  cases hstat : upd.status with
  | none =>
      have heq : updateTask st taskId upd now = .ok (commitUpdate st taskId task upd now) := by
        simp [updateTask, hget, hstat]
      rw [heq] at hok
      exact (Except.ok.inj hok).symm
  | some s =>
      by_cases hmem : s ∈ validStatuses
      · have heq : updateTask st taskId upd now = .ok (commitUpdate st taskId task upd now) := by
          simp [updateTask, hget, hstat, hmem]
        rw [heq] at hok
        exact (Except.ok.inj hok).symm
      · have heq : updateTask st taskId upd now = .error .badRequest := by
          simp [updateTask, hget, hstat, hmem]
        rw [heq] at hok
        exact absurd hok (by simp)

/-- Claim C4 (amended): list_tasks performs no offset/limit windowing;
offset and limit query parameters are ignored and the full
insertion-ordered result set is returned, which coincides with the spec's
slice only at offset 0 with a limit at least the result size. -/
theorem claim_C4_list_has_no_windowing (st : Store) (offset limit : Option Nat)
    (m : Nat) (hm : st.tasks.length ≤ m) :
    listTasksRequest st none offset limit = .ok st.tasks ∧
    listTasksRequest st none offset limit = listSpecPaged st none 0 m := by
  refine ⟨rfl, ?_⟩
  simp [listTasksRequest, listSpecPaged, listTasks, Except.map, List.take_of_length_le hm]

/-- Witness for the amended C4 at the two-row fixture. -/
theorem claim_C4_list_has_no_windowing_witness :
    demoStore.tasks.length ≤ 5 ∧
    (listTasksRequest demoStore none (some 0) (some 5) = .ok demoStore.tasks ∧
      listTasksRequest demoStore none (some 0) (some 5) = listSpecPaged demoStore none 0 5) :=
  ⟨by decide, claim_C4_list_has_no_windowing demoStore (some 0) (some 5) 5 (by decide)⟩

/-- Counterexample to C4 as stated: asked with offset 1 and limit 1 on a
two-row store, the code returns both rows, not the 1..1 slice. -/
theorem claim_C4_counterexample :
    listTasksRequest demoStore none (some 1) (some 1) = .ok [taskA, taskB] ∧
    listSpecPaged demoStore none 1 1 = .ok [taskB] ∧
    listTasksRequest demoStore none (some 1) (some 1) ≠ listSpecPaged demoStore none 1 1 := by
  refine ⟨rfl, rfl, ?_⟩
  decide

/-- Claim C2: get, update and delete on a non-live id each fail with the
404 not-found error and leave the store unchanged; and once a delete
succeeds, the id is no longer live, so a further get or delete on it
fails with 404. -/
theorem claim_C2_notfound_and_delete_finality :
    (∀ (st : Store) (taskId : Nat) (upd : TaskUpdate) (now : Nat),
      sessionGet st taskId = none →
      getTask st taskId = .error (.notFound taskId) ∧
      updateTask st taskId upd now = .error (.notFound taskId) ∧
      deleteTask st taskId = .error (.notFound taskId) ∧
      execOp st (.update taskId upd now) = st ∧
      execOp st (.delete taskId) = st) ∧
    (∀ (st : Store) (taskId : Nat) (st' : Store),
      deleteTask st taskId = .ok st' →
      sessionGet st' taskId = none ∧
      getTask st' taskId = .error (.notFound taskId) ∧
      deleteTask st' taskId = .error (.notFound taskId)) := by
  constructor
  · intro st taskId upd now h
    refine ⟨?_, ?_, ?_, ?_, ?_⟩ <;> simp [getTask, updateTask, deleteTask, execOp, h]
  · intro st taskId st' hdel
    unfold deleteTask at hdel
    cases hg : sessionGet st taskId with
    | none =>
        rw [hg] at hdel
        exact absurd hdel (by simp)
    | some task =>
        rw [hg] at hdel
        have hst' := Except.ok.inj hdel
        have hnone : sessionGet st' taskId = none := by
          rw [sessionGet_none]
          intro x hx
          rw [← hst'] at hx
          simp only [List.mem_filter] at hx
          simpa using hx.2
        exact ⟨hnone, by simp [getTask, hnone], by simp [deleteTask, hnone]⟩

/-- Witness for C2 at concrete stores: id 99 is not live in demoStore, and
deleting task 1 makes id 1 non-live. -/
theorem claim_C2_witness :
    (sessionGet demoStore 99 = none ∧
      (getTask demoStore 99 = .error (.notFound 99) ∧
        updateTask demoStore 99 demoUpd 5 = .error (.notFound 99) ∧
        deleteTask demoStore 99 = .error (.notFound 99) ∧
        execOp demoStore (.update 99 demoUpd 5) = demoStore ∧
        execOp demoStore (.delete 99) = demoStore)) ∧
    (deleteTask demoStore 1 = .ok afterDeleteStore ∧
      (sessionGet afterDeleteStore 1 = none ∧
        getTask afterDeleteStore 1 = .error (.notFound 1) ∧
        deleteTask afterDeleteStore 1 = .error (.notFound 1))) :=
  ⟨⟨by decide, claim_C2_notfound_and_delete_finality.1 demoStore 99 demoUpd 5 (by decide)⟩,
    ⟨by decide, claim_C2_notfound_and_delete_finality.2 demoStore 1 afterDeleteStore (by decide)⟩⟩

/-- Claim C5 (amended): an invalid non-empty list filter is rejected with
400 and the (read-only) query never runs; for update, the lookup precedes
validation: on a live id an invalid status is rejected with 400 and the
store is left unchanged, while on a non-live id the 404 takes precedence
over the 400. The store data itself carries no enum validation. -/
theorem claim_C5_enum_validation :
    (∀ (st : Store) (s : String), s ≠ "" → s ∉ validStatuses →
      listTasks st (some s) = .error .badRequest ∧ ApiError.badRequest.code = 400) ∧
    (∀ (st : Store) (taskId : Nat) (task : Task) (upd : TaskUpdate) (now : Nat) (s : String),
      sessionGet st taskId = some task → upd.status = some s → s ∉ validStatuses →
      updateTask st taskId upd now = .error .badRequest ∧
      execOp st (.update taskId upd now) = st) ∧
    (∀ (st : Store) (taskId : Nat) (upd : TaskUpdate) (now : Nat),
      sessionGet st taskId = none →
      updateTask st taskId upd now = .error (.notFound taskId) ∧
      (ApiError.notFound taskId).code = 404) := by
  refine ⟨?_, ?_, ?_⟩
  · intro st s hne hmem
    exact ⟨by simp [listTasks, hne, hmem], rfl⟩
  · intro st taskId task upd now s hget hstat hmem
    constructor
    · simp [updateTask, hget, hstat, hmem]
    · simp [execOp, updateTask, hget, hstat, hmem]
  · intro st taskId upd now h
    exact ⟨by simp [updateTask, h], rfl⟩

/-- Witness for the amended C5 at concrete inputs. -/
theorem claim_C5_enum_validation_witness :
    (("bogus" : String) ≠ "" ∧ "bogus" ∉ validStatuses ∧
      (listTasks demoStore (some "bogus") = .error .badRequest ∧
        ApiError.badRequest.code = 400)) ∧
    (sessionGet demoStore 1 = some taskA ∧ badUpd.status = some "bogus" ∧
      (updateTask demoStore 1 badUpd 9 = .error .badRequest ∧
        execOp demoStore (.update 1 badUpd 9) = demoStore)) ∧
    (sessionGet demoStore 99 = none ∧
      (updateTask demoStore 99 badUpd 9 = .error (.notFound 99) ∧
        (ApiError.notFound 99).code = 404)) :=
  ⟨⟨by decide, by decide,
      claim_C5_enum_validation.1 demoStore "bogus" (by decide) (by decide)⟩,
    ⟨by decide, by decide,
      claim_C5_enum_validation.2.1 demoStore 1 taskA badUpd 9 "bogus" (by decide) (by decide)
        (by decide)⟩,
    ⟨by decide,
      claim_C5_enum_validation.2.2 demoStore 99 badUpd 9 (by decide)⟩⟩

/-- Counterexample to C5 as stated: an update whose payload carries an
invalid status, sent for a non-live id, fails with 404, not 400 — the
store is queried (the lookup) before the enum validation runs. -/
theorem claim_C5_counterexample :
    updateTask emptyStore 1 badUpd 0 = .error (.notFound 1) ∧
    badUpd.status = some "bogus" ∧ "bogus" ∉ validStatuses ∧
    (ApiError.notFound 1).code = 404 := by
  decide

/-- Claim C1: a successful update overwrites exactly the fields the
payload supplies; unsupplied fields, the id and created_at keep their
prior values, and every other row (same length, same positions) is left
untouched. -/
theorem claim_C1_merge_semantics
    (st : Store) (taskId : Nat) (upd : TaskUpdate) (now : Nat)
    (task task' : Task) (st' : Store)
    (hget : sessionGet st taskId = some task)
    (hok : updateTask st taskId upd now = .ok (task', st')) :
    (upd.title = none → task'.title = task.title) ∧
    (∀ v, upd.title = some v → task'.title = v) ∧
    (upd.description = none → task'.description = task.description) ∧
    (∀ v, upd.description = some v → task'.description = v) ∧
    (upd.status = none → task'.status = task.status) ∧
    (∀ v, upd.status = some v → task'.status = v) ∧
    task'.id = task.id ∧ task'.created_at = task.created_at ∧
    st'.tasks.length = st.tasks.length ∧
    (∀ (i : Nat) (x : Task), st.tasks[i]? = some x → x.id ≠ taskId →
      st'.tasks[i]? = some x) := by
  have hcommit := updateTask_ok hget hok
  simp only [commitUpdate, Prod.mk.injEq] at hcommit
  obtain ⟨htask, hstore⟩ := hcommit
  subst htask
  refine ⟨?_, ?_, ?_, ?_, ?_, ?_, ?_, ?_, ?_, ?_⟩
  · intro h; simp [applyUpdate, h]
  · intro v h; simp [applyUpdate, h]
  · intro h; simp [applyUpdate, h]
  · intro v h; simp [applyUpdate, h]
  · intro h; simp [applyUpdate, h]
  · intro v h; simp [applyUpdate, h]
  · simp [applyUpdate]
  · simp [applyUpdate]
  · rw [hstore]; simp
  · intro i x hx hne
    rw [hstore]
    have hfalse : (x.id == taskId) = false := by simpa using hne
    simp [List.getElem?_map, hx, hfalse, hne]

/-- Witness for C1: renaming task 1 of the two-row store at time 7. -/
theorem claim_C1_merge_semantics_witness :
    (sessionGet demoStore 1 = some taskA ∧
      updateTask demoStore 1 titleUpd 7 = .ok (taskA', demoStoreRenamed)) ∧
    ((titleUpd.title = none → taskA'.title = taskA.title) ∧
      (∀ v, titleUpd.title = some v → taskA'.title = v) ∧
      (titleUpd.description = none → taskA'.description = taskA.description) ∧
      (∀ v, titleUpd.description = some v → taskA'.description = v) ∧
      (titleUpd.status = none → taskA'.status = taskA.status) ∧
      (∀ v, titleUpd.status = some v → taskA'.status = v) ∧
      taskA'.id = taskA.id ∧ taskA'.created_at = taskA.created_at ∧
      demoStoreRenamed.tasks.length = demoStore.tasks.length ∧
      (∀ (i : Nat) (x : Task), demoStore.tasks[i]? = some x → x.id ≠ 1 →
        demoStoreRenamed.tasks[i]? = some x)) :=
  ⟨⟨by decide, by decide⟩,
    claim_C1_merge_semantics demoStore 1 titleUpd 7 taskA taskA' demoStoreRenamed
      (by decide) (by decide)⟩

/-- A successful delete is exactly the removal of the rows carrying the
id, with the id counter untouched. -/
lemma deleteTask_ok {st : Store} {taskId : Nat} {st' : Store}
    (h : deleteTask st taskId = .ok st') :
    st'.tasks = st.tasks.filter (fun task => task.id != taskId) ∧
    st'.nextId = st.nextId := by
  cases hg : sessionGet st taskId with
  | none =>
      have heq : deleteTask st taskId = .error (.notFound taskId) := by
        simp [deleteTask, hg]
      rw [heq] at h
      exact absurd h (by simp)
  | some task =>
      have heq : deleteTask st taskId
          = .ok { st with tasks := st.tasks.filter (fun task => task.id != taskId) } := by
        simp [deleteTask, hg]
      rw [heq] at h
      rw [← Except.ok.inj h]
      exact ⟨rfl, rfl⟩

/-- Timestamp invariant of the data model: a row is never created after
its last update. -/
@[reducible] def TimeInv (st : Store) : Prop :=
  ∀ task ∈ st.tasks, task.created_at ≤ task.updated_at

/-- The collaborator-supplied clock does not run backwards: the time
handed to an update is no earlier than the target row's last update. -/
@[reducible] def opTimeOk (st : Store) : Op → Prop
  | .update taskId _ now => ∀ task ∈ st.tasks, task.id = taskId → task.updated_at ≤ now
  | _ => True

/-- Claim C6: when the clock has advanced past the row's last update, a
successful update strictly increases updated_at (to the supplied now) and
leaves created_at unchanged; and created_at ≤ updated_at is an invariant
of every operation run with a non-backwards clock, hence holds in every
reachable state. -/
theorem claim_C6_timestamp_monotonicity :
    (∀ (st : Store) (taskId : Nat) (upd : TaskUpdate) (now : Nat)
        (task task' : Task) (st' : Store),
      sessionGet st taskId = some task →
      updateTask st taskId upd now = .ok (task', st') →
      task.updated_at < now →
      task.updated_at < task'.updated_at ∧ task'.updated_at = now ∧
      task'.created_at = task.created_at) ∧
    (∀ (st : Store) (op : Op), TimeInv st → opTimeOk st op → TimeInv (execOp st op)) := by
  constructor
  · intro st taskId upd now task task' st' hget hok hlt
    have hcommit := updateTask_ok hget hok
    simp only [commitUpdate, Prod.mk.injEq] at hcommit
    obtain ⟨htask, hstore⟩ := hcommit
    subst htask
    exact ⟨by simpa using hlt, rfl, by simp [applyUpdate]⟩
  · intro st op hinv hok
    cases op with
    | create payload now =>
        intro x hx
        simp only [execOp, createTask, List.mem_append, List.mem_singleton] at hx
        rcases hx with hx | hx
        · exact hinv x hx
        · subst hx; simp
    | update taskId upd now =>
        cases hu : updateTask st taskId upd now with
        | error e => simpa [execOp, hu] using hinv
        | ok p =>
            obtain ⟨task', st'⟩ := p
            cases hg : sessionGet st taskId with
            | none =>
                have heq : updateTask st taskId upd now = .error (.notFound taskId) := by
                  simp [updateTask, hg]
                rw [heq] at hu
                exact absurd hu (by simp)
            | some task =>
                have hcommit := updateTask_ok hg hu
                simp only [commitUpdate, Prod.mk.injEq] at hcommit
                obtain ⟨htask, hstore⟩ := hcommit
                have hexec : execOp st (.update taskId upd now) = st' := by
                  simp [execOp, hu]
                rw [hexec, hstore]
                intro y hy
                simp only [List.mem_map] at hy
                obtain ⟨x, hxmem, hxy⟩ := hy
                have hfound := sessionGet_some hg
                by_cases hid : (x.id == taskId) = true
                · have h1 : task.created_at ≤ task.updated_at := hinv task hfound.2
                  have h2 : task.updated_at ≤ now := hok task hfound.2 hfound.1
                  subst htask
                  rw [← hxy, if_pos hid]
                  simp only [applyUpdate]
                  omega
                · rw [← hxy, if_neg hid]
                  exact hinv x hxmem
    | delete taskId =>
        cases hd : deleteTask st taskId with
        | error e => simpa [execOp, hd] using hinv
        | ok st' =>
            have hfields := deleteTask_ok hd
            have hexec : execOp st (.delete taskId) = st' := by simp [execOp, hd]
            rw [hexec]
            intro x hx
            rw [hfields.1] at hx
            exact hinv x (List.mem_of_mem_filter hx)

/-- Witness for C6: updating task 1 of the two-row store at time 7. -/
theorem claim_C6_timestamp_monotonicity_witness :
    (sessionGet demoStore 1 = some taskA ∧
      updateTask demoStore 1 titleUpd 7 = .ok (taskA', demoStoreRenamed) ∧
      taskA.updated_at < 7 ∧
      (taskA.updated_at < taskA'.updated_at ∧ taskA'.updated_at = 7 ∧
        taskA'.created_at = taskA.created_at)) ∧
    (TimeInv demoStore ∧ opTimeOk demoStore (.update 1 titleUpd 7) ∧
      TimeInv (execOp demoStore (.update 1 titleUpd 7))) :=
  ⟨⟨by decide, by decide, by decide,
      claim_C6_timestamp_monotonicity.1 demoStore 1 titleUpd 7 taskA taskA' demoStoreRenamed
        (by decide) (by decide) (by decide)⟩,
    ⟨by decide, by decide,
      claim_C6_timestamp_monotonicity.2 demoStore (.update 1 titleUpd 7)
        (by decide) (by decide)⟩⟩

/-- Identifier invariant: every live id is below the counter and the live
ids are pairwise distinct. -/
def StoreInv (st : Store) : Prop :=
  (∀ task ∈ st.tasks, task.id < st.nextId) ∧ (st.tasks.map Task.id).Nodup

/-- The startup store satisfies the identifier invariant. -/
lemma storeInv_empty : StoreInv emptyStore := by
  constructor <;> simp [emptyStore]

/-- A successful update changes neither the sequence of live ids nor the
id counter. -/
lemma updateTask_ids {st : Store} {taskId : Nat} {upd : TaskUpdate} {now : Nat}
    {task' : Task} {st' : Store}
    (hok : updateTask st taskId upd now = .ok (task', st')) :
    st'.tasks.map Task.id = st.tasks.map Task.id ∧ st'.nextId = st.nextId := by
  cases hg : sessionGet st taskId with
  | none =>
      have heq : updateTask st taskId upd now = .error (.notFound taskId) := by
        simp [updateTask, hg]
      rw [heq] at hok
      exact absurd hok (by simp)
  | some task =>
      have hcommit := updateTask_ok hg hok
      simp only [commitUpdate, Prod.mk.injEq] at hcommit
      obtain ⟨htask, hstore⟩ := hcommit
      refine ⟨?_, by rw [hstore]⟩
      rw [hstore]
      simp only [List.map_map]
      apply List.map_congr_left
      intro x hx
      by_cases hid : (x.id == taskId) = true
      · have h1 := (sessionGet_some hg).1
        have h2 : x.id = taskId := by simpa using hid
        simp [Function.comp_apply, if_pos hid, applyUpdate, h1, h2]
      · have hne : x.id ≠ taskId := by simpa using hid
        simp [Function.comp_apply, hne]

/-- Every API call preserves the identifier invariant. -/
lemma execOp_storeInv (st : Store) (op : Op) (h : StoreInv st) :
    StoreInv (execOp st op) := by
  obtain ⟨hlt, hnd⟩ := h
  cases op with
  | create payload now =>
      constructor
      · intro x hx
        simp only [execOp, createTask, List.mem_append, List.mem_singleton] at hx
        rcases hx with hx | hx
        · exact Nat.lt_succ_of_lt (hlt x hx)
        · subst hx; simp [execOp, createTask]
      · simp only [execOp, createTask, List.map_append, List.map_cons, List.map_nil]
        rw [List.nodup_append]
        refine ⟨hnd, List.nodup_singleton _, ?_⟩
        intro a ha hb
        simp only [List.mem_map] at ha
        simp only [List.mem_singleton] at hb
        obtain ⟨x, hx, hxa⟩ := ha
        have := hlt x hx
        rw [hxa, hb] at this
        exact absurd this (lt_irrefl _)
  | update taskId upd now =>
      cases hu : updateTask st taskId upd now with
      | error e => simpa [execOp, hu] using ⟨hlt, hnd⟩
      | ok p =>
          obtain ⟨task', st'⟩ := p
          have hids := updateTask_ids hu
          have hexec : execOp st (.update taskId upd now) = st' := by simp [execOp, hu]
          rw [hexec]
          constructor
          · intro x hx
            have hmem : x.id ∈ st'.tasks.map Task.id := List.mem_map_of_mem _ hx
            rw [hids.1] at hmem
            rw [hids.2]
            simp only [List.mem_map] at hmem
            obtain ⟨y, hy, hyx⟩ := hmem
            rw [← hyx]
            exact hlt y hy
          · rw [hids.1]; exact hnd
  | delete taskId =>
      cases hd : deleteTask st taskId with
      | error e => simpa [execOp, hd] using ⟨hlt, hnd⟩
      | ok st' =>
          have hfields := deleteTask_ok hd
          have hexec : execOp st (.delete taskId) = st' := by simp [execOp, hd]
          rw [hexec]
          constructor
          · intro x hx
            rw [hfields.1] at hx
            rw [hfields.2]
            exact hlt x (List.mem_of_mem_filter hx)
          · rw [hfields.1]
            exact List.Nodup.sublist (List.Sublist.map _ (List.filter_sublist _)) hnd

/-- The identifier invariant holds along any run. -/
lemma foldl_storeInv (ops : List Op) (st : Store) (h : StoreInv st) :
    StoreInv (ops.foldl execOp st) := by
  induction ops generalizing st with
  | nil => exact h
  | cons op rest ih => exact ih _ (execOp_storeInv st op h)

/-- The identifier invariant holds in every reachable store. -/
lemma execTrace_storeInv (ops : List Op) : StoreInv (execTrace ops) :=
  foldl_storeInv ops emptyStore storeInv_empty

/-- No call ever decreases the id counter. -/
lemma execOp_nextId_le (st : Store) (op : Op) : st.nextId ≤ (execOp st op).nextId := by
  cases op with
  | create payload now =>
      simp only [execOp, createTask]
      exact Nat.le_succ _
  | update taskId upd now =>
      cases hu : updateTask st taskId upd now with
      | error e => simp [execOp, hu]
      | ok p =>
          obtain ⟨task', st'⟩ := p
          have := (updateTask_ids hu).2
          simp [execOp, hu, this]
  | delete taskId =>
      cases hd : deleteTask st taskId with
      | error e => simp [execOp, hd]
      | ok st' =>
          have := (deleteTask_ok hd).2
          simp [execOp, hd, this]

/-- History invariant: the store invariant, every assigned id below the
counter, and the assigned ids pairwise distinct. -/
def AllocInv (p : Store × List Nat) : Prop :=
  StoreInv p.1 ∧ (∀ a ∈ p.2, a < p.1.nextId) ∧ p.2.Nodup

/-- Each step of the history fold preserves the history invariant. -/
lemma allocStep_inv (p : Store × List Nat) (op : Op) (h : AllocInv p) :
    AllocInv (allocStep p op) := by
  obtain ⟨hst, hbound, hnd⟩ := h
  cases op with
  | create payload now =>
      refine ⟨execOp_storeInv _ _ hst, ?_, ?_⟩
      · intro a ha
        simp only [allocStep, List.mem_append, List.mem_singleton] at ha
        rcases ha with ha | ha
        · exact lt_of_lt_of_le (hbound a ha) (execOp_nextId_le p.1 _)
        · subst ha
          simp [allocStep, execOp, createTask]
      · simp only [allocStep]
        rw [List.nodup_append]
        refine ⟨hnd, List.nodup_singleton _, ?_⟩
        intro a ha hb
        simp only [List.mem_singleton] at hb
        subst hb
        exact absurd (hbound _ ha) (lt_irrefl _)
  | update taskId upd now =>
      refine ⟨execOp_storeInv _ _ hst, ?_, hnd⟩
      intro a ha
      exact lt_of_lt_of_le (hbound a ha) (execOp_nextId_le p.1 _)
  | delete taskId =>
      refine ⟨execOp_storeInv _ _ hst, ?_, hnd⟩
      intro a ha
      exact lt_of_lt_of_le (hbound a ha) (execOp_nextId_le p.1 _)

/-- The history invariant holds along any history fold. -/
lemma foldl_allocInv (ops : List Op) (p : Store × List Nat) (h : AllocInv p) :
    AllocInv (List.foldl allocStep p ops) := by
  induction ops generalizing p with
  | nil => exact h
  | cons op rest ih => exact ih _ (allocStep_inv p op h)

/-- The history invariant holds for every history from startup. -/
lemma allocRun_inv (ops : List Op) : AllocInv (allocRun ops) :=
  foldl_allocInv ops (emptyStore, []) ⟨storeInv_empty, by simp, List.nodup_nil⟩

/-- The store component of the history fold is the plain run. -/
lemma allocRun_fst (ops : List Op) : (allocRun ops).1 = execTrace ops := by
  suffices h : ∀ (l : List Op) (st : Store) (ids : List Nat),
      (List.foldl allocStep (st, ids) l).1 = List.foldl execOp st l by
    exact h ops emptyStore []
  intro l
  induction l with
  | nil => intro st ids; rfl
  | cons op rest ih =>
      intro st ids
      cases op with
      | create payload now => exact ih _ _
      | update taskId upd now => exact ih _ _
      | delete taskId => exact ih _ _

/-- Fixture: a one-create history. -/
def demoOps : List Op := [.create { title := "Task 1", description := none } 0]

/-- Fixture: a second creation payload. -/
def demoPayload : TaskCreate := { title := "Task 2", description := some "later" }

/-- Claim C7: on any reachable store, create succeeds (it is total),
assigns an identifier never assigned before in the whole history and not
carried by any live row, copies title and description from the payload,
sets status to "pending" and created_at = updated_at = now, appends the
record as the newest entry, and returns exactly that record. -/
theorem claim_C7_create_semantics (ops : List Op) (payload : TaskCreate) (now : Nat) :
    (createTask (execTrace ops) payload now).1.id ∉ assignedIds ops ∧
    (createTask (execTrace ops) payload now).1.id
      ∉ (execTrace ops).tasks.map Task.id ∧
    (createTask (execTrace ops) payload now).1.title = payload.title ∧
    (createTask (execTrace ops) payload now).1.description = payload.description ∧
    (createTask (execTrace ops) payload now).1.status = "pending" ∧
    (createTask (execTrace ops) payload now).1.created_at = now ∧
    (createTask (execTrace ops) payload now).1.updated_at = now ∧
    (createTask (execTrace ops) payload now).2.tasks
      = (execTrace ops).tasks ++ [(createTask (execTrace ops) payload now).1] := by
  have hinv := allocRun_inv ops
  have hfst := allocRun_fst ops
  refine ⟨?_, ?_, rfl, rfl, rfl, rfl, rfl, rfl⟩
  · intro hmem
    have hb := hinv.2.1 _ hmem
    rw [hfst] at hb
    exact absurd hb (lt_irrefl _)
  · intro hmem
    have hst := execTrace_storeInv ops
    simp only [List.mem_map] at hmem
    obtain ⟨x, hx, hxid⟩ := hmem
    have hlt := hst.1 x hx
    rw [hxid] at hlt
    exact absurd hlt (lt_irrefl _)

/-- Witness for C7: a create on the store reached by one earlier create. -/
theorem claim_C7_create_semantics_witness :
    (createTask (execTrace demoOps) demoPayload 5).1.id ∉ assignedIds demoOps ∧
    (createTask (execTrace demoOps) demoPayload 5).1.id
      ∉ (execTrace demoOps).tasks.map Task.id ∧
    (createTask (execTrace demoOps) demoPayload 5).1.title = demoPayload.title ∧
    (createTask (execTrace demoOps) demoPayload 5).1.description = demoPayload.description ∧
    (createTask (execTrace demoOps) demoPayload 5).1.status = "pending" ∧
    (createTask (execTrace demoOps) demoPayload 5).1.created_at = 5 ∧
    (createTask (execTrace demoOps) demoPayload 5).1.updated_at = 5 ∧
    (createTask (execTrace demoOps) demoPayload 5).2.tasks
      = (execTrace demoOps).tasks ++ [(createTask (execTrace demoOps) demoPayload 5).1] :=
  claim_C7_create_semantics demoOps demoPayload 5

/-- Claim C8: in every reachable store no two live rows share an id; an id
is never handed out twice across a whole history (so never reassigned
after a delete); a successful update keeps the target's id and the whole
id sequence unchanged; and delete only removes rows. -/
theorem claim_C8_id_uniqueness_and_stability :
    (∀ ops : List Op, ((execTrace ops).tasks.map Task.id).Nodup) ∧
    (∀ ops : List Op, (assignedIds ops).Nodup) ∧
    (∀ (st : Store) (taskId : Nat) (upd : TaskUpdate) (now : Nat)
        (task task' : Task) (st' : Store),
      sessionGet st taskId = some task →
      updateTask st taskId upd now = .ok (task', st') →
      task'.id = task.id ∧ st'.tasks.map Task.id = st.tasks.map Task.id) ∧
    (∀ (st : Store) (taskId : Nat) (st' : Store), deleteTask st taskId = .ok st' →
      ∀ x ∈ st'.tasks, x ∈ st.tasks) := by
  refine ⟨?_, ?_, ?_, ?_⟩
  · intro ops
    exact (execTrace_storeInv ops).2
  · intro ops
    exact (allocRun_inv ops).2.2
  · intro st taskId upd now task task' st' hget hok
    refine ⟨?_, (updateTask_ids hok).1⟩
    have hcommit := updateTask_ok hget hok
    simp only [commitUpdate, Prod.mk.injEq] at hcommit
    rw [hcommit.1]
    simp [applyUpdate]
  · intro st taskId st' hdel x hx
    rw [(deleteTask_ok hdel).1] at hx
    exact List.mem_of_mem_filter hx

/-- Witness for C8 at the concrete fixtures. -/
theorem claim_C8_witness :
    ((execTrace demoOps).tasks.map Task.id).Nodup ∧
    (assignedIds demoOps).Nodup ∧
    (sessionGet demoStore 1 = some taskA ∧
      updateTask demoStore 1 titleUpd 7 = .ok (taskA', demoStoreRenamed) ∧
      (taskA'.id = taskA.id ∧
        demoStoreRenamed.tasks.map Task.id = demoStore.tasks.map Task.id)) ∧
    (deleteTask demoStore 1 = .ok afterDeleteStore ∧
      ∀ x ∈ afterDeleteStore.tasks, x ∈ demoStore.tasks) :=
  ⟨claim_C8_id_uniqueness_and_stability.1 demoOps,
    claim_C8_id_uniqueness_and_stability.2.1 demoOps,
    ⟨by decide, by decide,
      claim_C8_id_uniqueness_and_stability.2.2.1 demoStore 1 titleUpd 7 taskA taskA'
        demoStoreRenamed (by decide) (by decide)⟩,
    ⟨by decide,
      claim_C8_id_uniqueness_and_stability.2.2.2 demoStore 1 afterDeleteStore (by decide)⟩⟩

end TaskAPI
